import Mathlib

/-!
Verification of the Warsaw ZTM live-vehicle map (position-history and
animation engine).

The repository contains several near-duplicate variants of the same
browser application.  The ones relevant to the claims are:

* `src/unnamed/part_000` — the variant whose `fetchBusData` has the
  stale-timestamp guard and whose `animate` splits segments into
  finished/animating by wall-clock time.  Modelled below as
  `ingestBus`, `segmentsForBus`, `classify000`, `busHeads`.
* `src/public/index.js` — same normalization and history push/shift,
  but its ingestion lacks the `bus.Timestamp <= last.time` guard.
  Modelled as `ingestBusPublic`.
* `src/unnamed/part_001` — guarded ingestion, but its segment builder
  classifies segments positionally (all but the last pair are
  "finished", the last pair is "animating").  Modelled as
  `segments001`.
* `src/unnamed/part_002` — guarded ingestion with a two-point seeding
  policy, and a builder that only emits the most recent pairs with a
  10-point interpolated path.  Modelled as `ingestBus002`,
  `segments002`.

Times are modelled as `Int` milliseconds (resp. seconds after the
`Math.floor(t / 1000)` conversion, which is `Int.fdiv` since JS
`Math.floor` rounds toward negative infinity); coordinates as `Rat`.
-/

/-- One recorded position of one vehicle: the `{lon, lat, time}` records
stored in `busHistory` (time in epoch milliseconds). -/
structure Obs where
  lon : Rat
  lat : Rat
  time : Int
deriving DecidableEq, Repr

/-- A normalized vehicle report, the element type of the `buses` array
produced by `fetchBusData` from the decoded feed entities. -/
structure Bus where
  vehicleNumber : String
  lon : Rat
  lat : Rat
  lines : String
  brigade : String
  timestamp : Int
deriving DecidableEq, Repr

/-- A decoded GTFS-Realtime feed entity, as far as `fetchBusData` reads
it: `hasVehicle`/`hasPosition` model the truthiness of `e.vehicle` and
`e.vehicle.position`; `vehicleId` models `e.vehicle.vehicle.id` (with
`none` for an absent descriptor or id), `routeId` models
`e.vehicle.trip.routeId`, and `timestamp` the optional epoch-seconds
`e.vehicle.timestamp`. -/
structure Entity where
  hasVehicle : Bool
  hasPosition : Bool
  vehicleId : Option String
  longitude : Rat
  latitude : Rat
  routeId : Option String
  timestamp : Option Int
deriving DecidableEq, Repr

/-- Per-vehicle history: the value type of `busHistory`. -/
abbrev History := List Obs

/-- The `busHistory` object, modelled as an association list
(`VehicleNumber -> [{lon, lat, time}]`). -/
abbrev Store := List (String × History)

/-- Lookup `m[k]` in a JS-object-as-association-list. -/
def alistFind {α : Type} : List (String × α) → String → Option α
  | [], _ => none
  | (k, v) :: rest, key => if k = key then some v else alistFind rest key

/-- Assignment `m[k] = v` on a JS-object-as-association-list: replace
the binding if the key is present, append it otherwise. -/
def alistSet {α : Type} : List (String × α) → String → α → List (String × α)
  | [], key, v => [(key, v)]
  | (k, w) :: rest, key, v =>
      if k = key then (k, v) :: rest else (k, w) :: alistSet rest key v

/-- Maximum retained history entries per vehicle (`HISTORY_LENGTH`). -/
def HISTORY_LENGTH : Nat := 100

/-- The append performed on a vehicle history:
`hist.push(entry); if (hist.length > HISTORY_LENGTH) hist.shift();`. -/
def pushBounded (hist : History) (o : Obs) : History :=
  let h := hist ++ [o]
  if HISTORY_LENGTH < h.length then h.tail else h

/-- JS `x && x.f ? x.f : ''` for an optional string field: an absent
field yields `""`; note that a present-but-empty id is falsy in JS and
also yields `""`, which coincides with returning the value itself. -/
def jsStringOr : Option String → String
  | some v => v
  | none => ""

/-- JS `e.vehicle.timestamp ? e.vehicle.timestamp * 1000 : now`:
feed timestamps are epoch seconds, scaled to milliseconds; an absent or
zero (falsy) timestamp defaults to the ingestion wall-clock time. -/
def resolveTs (ts : Option Int) (now : Int) : Int :=
  match ts with
  | some t => if t ≠ 0 then t * 1000 else now
  | none => now

/-- The per-entity normalization inside `fetchBusData`'s `.map`. -/
def busOfEntity (now : Int) (e : Entity) : Bus :=
  { vehicleNumber := jsStringOr e.vehicleId
    lon := e.longitude
    lat := e.latitude
    lines := jsStringOr e.routeId
    brigade := jsStringOr e.vehicleId
    timestamp := resolveTs e.timestamp now }

/-- The `buses` array of `fetchBusData` (src/public/index.js and
src/unnamed/part_000): filter entities with a vehicle position, map to
reports, and drop the vehicle with id `V/10/9`. -/
def toBuses (entities : List Entity) (now : Int) : List Bus :=
  ((entities.filter fun e => e.hasVehicle && e.hasPosition).map
      (busOfEntity now)).filter fun b => b.vehicleNumber ≠ "V/10/9"

/-- History update for one report in src/unnamed/part_000 (also
part_001): skip empty ids, seed unseen vehicles with a single point at
ingestion wall-clock time, reject a report whose timestamp is not
greater than the last stored time, and otherwise append when position
or timestamp differs from the last entry. -/
def ingestBus (store : Store) (now : Int) (bus : Bus) : Store :=
  if bus.vehicleNumber = "" then store
  else
    match alistFind store bus.vehicleNumber with
    | none => alistSet store bus.vehicleNumber [⟨bus.lon, bus.lat, now⟩]
    | some hist =>
      match hist.getLast? with
      | none =>
          alistSet store bus.vehicleNumber
            (pushBounded hist ⟨bus.lon, bus.lat, bus.timestamp⟩)
      | some last =>
          if bus.timestamp ≤ last.time then store
          else if last.lon ≠ bus.lon ∨ last.lat ≠ bus.lat ∨
              last.time ≠ bus.timestamp then
            alistSet store bus.vehicleNumber
              (pushBounded hist ⟨bus.lon, bus.lat, bus.timestamp⟩)
          else store

/-- History update for one report in src/public/index.js: identical to
`ingestBus` except that the `bus.Timestamp <= last.time` rejection is
absent — any report differing from the last entry in position or
timestamp is appended. -/
def ingestBusPublic (store : Store) (now : Int) (bus : Bus) : Store :=
  if bus.vehicleNumber = "" then store
  else
    match alistFind store bus.vehicleNumber with
    | none => alistSet store bus.vehicleNumber [⟨bus.lon, bus.lat, now⟩]
    | some hist =>
      match hist.getLast? with
      | none =>
          alistSet store bus.vehicleNumber
            (pushBounded hist ⟨bus.lon, bus.lat, bus.timestamp⟩)
      | some last =>
          if last.lon ≠ bus.lon ∨ last.lat ≠ bus.lat ∨
              last.time ≠ bus.timestamp then
            alistSet store bus.vehicleNumber
              (pushBounded hist ⟨bus.lon, bus.lat, bus.timestamp⟩)
          else store

/-- History update for one report in src/unnamed/part_002: as
`ingestBus`, but an unseen vehicle is seeded with a synthetic two-point
history at the reported position, at times `now - 5000` and `now`
(both wall-clock at ingestion). -/
def ingestBus002 (store : Store) (now : Int) (bus : Bus) : Store :=
  if bus.vehicleNumber = "" then store
  else
    match alistFind store bus.vehicleNumber with
    | none =>
        alistSet store bus.vehicleNumber
          [⟨bus.lon, bus.lat, now - 5000⟩, ⟨bus.lon, bus.lat, now⟩]
    | some hist =>
      match hist.getLast? with
      | none =>
          alistSet store bus.vehicleNumber
            (pushBounded hist ⟨bus.lon, bus.lat, bus.timestamp⟩)
      | some last =>
          if bus.timestamp ≤ last.time then store
          else if last.lon ≠ bus.lon ∨ last.lat ≠ bus.lat ∨
              last.time ≠ bus.timestamp then
            alistSet store bus.vehicleNumber
              (pushBounded hist ⟨bus.lon, bus.lat, bus.timestamp⟩)
          else store

/-- The `buses.forEach` history-update pass of part_000's
`fetchBusData`. -/
def ingestBatch (store : Store) (now : Int) (buses : List Bus) : Store :=
  buses.foldl (fun s b => ingestBus s now b) store

/-- The `buses.forEach` history-update pass of src/public/index.js. -/
def ingestBatchPublic (store : Store) (now : Int) (buses : List Bus) : Store :=
  buses.foldl (fun s b => ingestBusPublic s now b) store

/-- Consecutive pairs `(hist[i-1], hist[i])` for `i = 1 .. length-1`,
the iteration space of every segment-builder loop in the sources. -/
def pairs : List Obs → List (Obs × Obs)
  | a :: b :: rest => (a, b) :: pairs (b :: rest)
  | _ => []

/-- A drawable segment as built by part_000's `fetchBusData`: a
two-point path, per-segment-relative `timestamps` `[0, t1 - t0]` in
seconds, a constant color, the report it came from, and the absolute
start second `segmentStartTime`. -/
structure Trip where
  path : List (Rat × Rat)
  timestamps : List Int
  color : List Int
  vehicle : Bus
  segmentStartTime : Int
deriving DecidableEq, Repr

/-- One loop body of part_000's segment builder, for the consecutive
observations `prev`, `curr`:
`t0 = Math.floor(prev.time / 1000)`, `t1 = Math.floor(curr.time / 1000)`
(`Int.fdiv` is floor division). -/
def segOfPair (bus : Bus) (prev curr : Obs) : Trip :=
  let t0 := prev.time.fdiv 1000
  let t1 := curr.time.fdiv 1000
  { path := [(prev.lon, prev.lat), (curr.lon, curr.lat)]
    timestamps := [0, t1 - t0]
    color := [255, 0, 0, 200]
    vehicle := bus
    segmentStartTime := t0 }

/-- Segments emitted for one report by part_000's builder: nothing for
a history shorter than two points, else one `Trip` per consecutive
pair. -/
def segmentsForBus (store : Store) (bus : Bus) : List Trip :=
  let hist := (alistFind store bus.vehicleNumber).getD []
  if hist.length < 2 then []
  else (pairs hist).map fun pc => segOfPair bus pc.1 pc.2

/-- The full `trips` array returned by part_000's `fetchBusData`. -/
def buildTrips (store : Store) (buses : List Bus) : List Trip :=
  buses.flatMap (segmentsForBus store)

/-- Absolute end second of a segment:
`seg.segmentStartTime + seg.timestamps[1]` as computed in part_000's
`animate`. -/
def segmentEnd (seg : Trip) : Int :=
  seg.segmentStartTime + seg.timestamps.getD 1 0

/-- The finished-branch test of the classification loop in part_000's
`animate` (segments with a falsy vehicle id are skipped). -/
def isFinished (now : Int) (seg : Trip) : Bool :=
  seg.vehicle.vehicleNumber != "" && decide (now ≥ segmentEnd seg)

/-- The animating-branch test of the classification loop in part_000's
`animate`: reached only when the finished test failed (the
`else if` chain), and then requires
`nowSec >= seg.segmentStartTime && nowSec < segEnd`. -/
def isAnimating (now : Int) (seg : Trip) : Bool :=
  seg.vehicle.vehicleNumber != "" && !(decide (now ≥ segmentEnd seg)) &&
    decide (now ≥ seg.segmentStartTime) && decide (now < segmentEnd seg)

/-- The classification loop of part_000's `animate`, split into
`(finishedSegments, animatingSegments)`; segments satisfying neither
branch (`now < startTime`) land in neither list. -/
def classify000 (trips : List Trip) (now : Int) : List Trip × List Trip :=
  (trips.filter (isFinished now), trips.filter (isAnimating now))

/-- JS `d || 1` for the (integer) segment duration: a zero (falsy)
duration is replaced by 1. -/
def jsOrOne (d : Int) : Int := if d = 0 then 1 else d

/-- The head-interpolation fraction of part_000's `animate`:
`Math.max(0, Math.min(1, (now - seg.segmentStartTime) / (seg.timestamps[1] || 1)))`. -/
def headFraction (seg : Trip) (now : Int) : Rat :=
  max 0 (min 1
    (((now : Rat) - (seg.segmentStartTime : Rat)) /
      ((jsOrOne (seg.timestamps.getD 1 0) : Int) : Rat)))

/-- Interpolated head position for an animating segment
(`const [start, end] = seg.path; lon = start[0] + (end[0]-start[0])*t;
lat = start[1] + (end[1]-start[1])*t`). -/
def headPos (seg : Trip) (now : Int) : Rat × Rat :=
  let t := headFraction seg now
  let s := seg.path.getD 0 (0, 0)
  let e := seg.path.getD 1 (0, 0)
  (s.1 + (e.1 - s.1) * t, s.2 + (e.2 - s.2) * t)

/-- The `busHeads` computation of part_000's `animate`: first every
animating segment writes its interpolated head (later entries of the
loop overwrite earlier ones), then every finished segment writes its
endpoint `seg.path[1]` only for vehicles that do not yet have a head
(`if (vehicleId && !busHeads[vehicleId])`). -/
def busHeads (animating finished : List Trip) (now : Int) :
    List (String × (Rat × Rat)) :=
  let m1 := animating.foldl
    (fun m seg =>
      if seg.vehicle.vehicleNumber = "" then m
      else alistSet m seg.vehicle.vehicleNumber (headPos seg now)) []
  finished.foldl
    (fun m seg =>
      if seg.vehicle.vehicleNumber ≠ "" ∧
          alistFind m seg.vehicle.vehicleNumber = none then
        alistSet m seg.vehicle.vehicleNumber (seg.path.getD 1 (0, 0))
      else m) m1

/-- Outcome of the awaited fetch/decode in `fetchBusData`: `none` when
the fetch or decode threw (the `catch` path), `some entities`
otherwise. -/
abbrev FetchOutcome := Option (List Entity)

/-- part_000's `fetchBusData` from the fetch outcome onward: on
success, normalize, mutate `busHistory`, and build the per-pair trips;
on an exception, the `catch` logs and returns `[]`, leaving `busHistory`
untouched. Result: (new store, returned trips array). -/
def fetchBusData000 (store : Store) (outcome : FetchOutcome) (now : Int) :
    Store × List Trip :=
  match outcome with
  | none => (store, [])
  | some entities =>
    let buses := toBuses entities now
    let store2 := ingestBatch store now buses
    (store2, buildTrips store2 buses)

/-- part_000's `updateTrips`: `lastTripsData = tripsData`
unconditionally, so the previous cached trips (first argument) are
always replaced by whatever `fetchBusData` returned. Result:
(new `lastTripsData`, new store). -/
def updateTrips000 (_lastTripsData : List Trip) (store : Store)
    (outcome : FetchOutcome) (now : Int) : List Trip × Store :=
  let res := fetchBusData000 store outcome now
  (res.2, res.1)

/-- A segment as built by part_001's `fetchBusData` (it additionally
records the absolute end second `segmentEndTime`). -/
structure Trip001 where
  path : List (Rat × Rat)
  timestamps : List Int
  color : List Int
  vehicle : Bus
  segmentStartTime : Int
  segmentEndTime : Int
deriving DecidableEq, Repr

/-- One loop body of part_001's segment builder. -/
def seg001OfPair (bus : Bus) (prev curr : Obs) : Trip001 :=
  let t0 := prev.time.fdiv 1000
  let t1 := curr.time.fdiv 1000
  { path := [(prev.lon, prev.lat), (curr.lon, curr.lat)]
    timestamps := [0, t1 - t0]
    color := [255, 0, 0, 200]
    vehicle := bus
    segmentStartTime := t0
    segmentEndTime := t1 }

/-- part_001's segment builder for one report, returning
`(finishedSegments, animatingSegments)`: the loop pushes the segment
for pair index `i` to `finishedSegments` when `i < hist.length - 1`
and to `animatingSegments` when it is the last pair — the split is
positional and does not consult the clock. -/
def segments001 (store : Store) (bus : Bus) :
    List Trip001 × List Trip001 :=
  let hist := (alistFind store bus.vehicleNumber).getD []
  if hist.length < 2 then ([], [])
  else
    let segs := (pairs hist).map fun pc => seg001OfPair bus pc.1 pc.2
    (segs.take (segs.length - 1), segs.drop (segs.length - 1))

/-- `INTERP_POINTS` of part_002. -/
def INTERP_POINTS : Nat := 10

/-- `MIN_SEGMENT_DURATION` of part_002 (seconds). -/
def MIN_SEGMENT_DURATION : Rat := 19

/-- A segment as built by part_002's `fetchBusData`: a 10-point
interpolated path and fractional synthetic timestamps.  The cosmetic
age-fade color (`255 * (i / (L-1)) ** 0.7`, a non-rational real power)
is presentation-only and not modelled. -/
structure Trip002 where
  path : List (Rat × Rat)
  timestamps : List Rat
  vehicle : Bus
deriving DecidableEq, Repr

/-- The interpolated 10-point path of one part_002 segment. -/
def interpPath (prev curr : Obs) : List (Rat × Rat) :=
  (List.range INTERP_POINTS).map fun j =>
    let frac : Rat := (j : Rat) / ((INTERP_POINTS : Rat) - 1)
    (prev.lon + (curr.lon - prev.lon) * frac,
     prev.lat + (curr.lat - prev.lat) * frac)

/-- One loop body of part_002's segment builder. The last pair gets a
full animation ramp `(j / 9) * 19`; earlier pairs get all-zero
timestamps (static). -/
def seg002OfPair (bus : Bus) (lastPair : Bool) (prev curr : Obs) : Trip002 :=
  { path := interpPath prev curr
    timestamps :=
      if lastPair then
        (List.range INTERP_POINTS).map fun j =>
          ((j : Rat) / ((INTERP_POINTS : Rat) - 1)) * MIN_SEGMENT_DURATION
      else List.replicate INTERP_POINTS 0
    vehicle := bus }

/-- part_002's segment builder for one report: the loop starts at
`startIndex = Math.max(1, hist.length - 3)`, so only the most recent
`min(hist.length - 1, 3)` consecutive pairs produce segments. -/
def segments002 (store : Store) (bus : Bus) : List Trip002 :=
  let hist := (alistFind store bus.vehicleNumber).getD []
  if hist.length < 2 then []
  else
    let startIndex : Nat := max 1 (hist.length - 3)
    let ps := (pairs hist).drop (startIndex - 1)
    (ps.take (ps.length - 1)).map
        (fun pc => seg002OfPair bus false pc.1 pc.2) ++
      (ps.drop (ps.length - 1)).map fun pc => seg002OfPair bus true pc.1 pc.2

/-! Helper lemmas about the association-list object model. -/

theorem alistFind_set_self {α : Type} (m : List (String × α)) (k : String)
    (v : α) : alistFind (alistSet m k v) k = some v := by
  induction m with
  | nil => simp [alistSet, alistFind]
  | cons kv rest ih =>
    obtain ⟨k', w⟩ := kv
    by_cases h : k' = k
    · simp [alistSet, alistFind, h]
    · simp [alistSet, alistFind, h, ih]

theorem alistFind_set_ne {α : Type} (m : List (String × α)) (k k' : String)
    (v : α) (h : k' ≠ k) : alistFind (alistSet m k v) k' = alistFind m k' := by
  have h' : k ≠ k' := Ne.symm h
  induction m with
  | nil => simp [alistSet, alistFind, h']
  | cons kv rest ih =>
    obtain ⟨k0, w⟩ := kv
    by_cases h0 : k0 = k
    · subst h0
      simp [alistSet, alistFind, h']
    · by_cases h1 : k0 = k'
      · simp [alistSet, alistFind, h0, h1, h]
      · simp [alistSet, alistFind, h0, h1, ih]

theorem mem_of_alistFind {α : Type} {m : List (String × α)} {k : String}
    {v : α} (h : alistFind m k = some v) : (k, v) ∈ m := by
  induction m with
  | nil => simp [alistFind] at h
  | cons kv rest ih =>
    obtain ⟨k0, w⟩ := kv
    by_cases h0 : k0 = k
    · subst h0
      simp [alistFind] at h
      simp [h]
    · simp [alistFind, h0] at h
      exact List.mem_cons_of_mem _ (ih h)

theorem mem_alistSet {α : Type} {m : List (String × α)} {k : String} {v : α}
    {kv : String × α} (h : kv ∈ alistSet m k v) : kv ∈ m ∨ kv = (k, v) := by
  induction m with
  | nil => simp [alistSet] at h; simp [h]
  | cons hd rest ih =>
    obtain ⟨k0, w⟩ := hd
    by_cases h0 : k0 = k
    · subst h0
      simp only [alistSet, if_pos rfl] at h
      rcases List.mem_cons.1 h with h1 | h1
      · right; simpa using h1
      · left; exact List.mem_cons_of_mem _ h1
    · simp only [alistSet, if_neg h0] at h
      rcases List.mem_cons.1 h with h1 | h1
      · left; simp [h1]
      · rcases ih h1 with h2 | h2
        · left; exact List.mem_cons_of_mem _ h2
        · right; exact h2

/-! Helper lemmas about the bounded push. -/

theorem pushBounded_eq (hist : History) (o : Obs) :
    pushBounded hist o =
      if HISTORY_LENGTH < hist.length + 1 then (hist ++ [o]).tail
      else hist ++ [o] := by
  simp [pushBounded]

theorem tail_append_singleton {hist : History} (o : Obs) (h : hist ≠ []) :
    (hist ++ [o]).tail = hist.tail ++ [o] := by
  cases hist with
  | nil => simp at h
  | cons a t => rfl

theorem pushBounded_length_le (hist : History) (o : Obs)
    (h : hist.length ≤ HISTORY_LENGTH) :
    (pushBounded hist o).length ≤ HISTORY_LENGTH := by
  rw [pushBounded_eq]
  by_cases hc : HISTORY_LENGTH < hist.length + 1
  · rw [if_pos hc]
    simp only [List.length_tail, List.length_append, List.length_cons,
      List.length_nil]
    omega
  · rw [if_neg hc]
    simp only [List.length_append, List.length_cons, List.length_nil]
    omega

theorem pushBounded_eq_append (hist : History) (o : Obs)
    (h : hist.length < HISTORY_LENGTH) : pushBounded hist o = hist ++ [o] := by
  rw [pushBounded_eq, if_neg (by omega)]

theorem pushBounded_eq_evict (hist : History) (o : Obs)
    (h : hist.length = HISTORY_LENGTH) :
    pushBounded hist o = hist.tail ++ [o] := by
  rw [pushBounded_eq, if_pos (by omega)]
  exact tail_append_singleton o (by
    intro hnil
    rw [hnil] at h
    simp [HISTORY_LENGTH] at h)

theorem getLast?_pushBounded (hist : History) (o : Obs) :
    (pushBounded hist o).getLast? = some o := by
  rw [pushBounded_eq]
  by_cases hc : HISTORY_LENGTH < hist.length + 1
  · rw [if_pos hc]
    rw [tail_append_singleton o (by
      intro hnil
      rw [hnil] at hc
      simp [HISTORY_LENGTH] at hc)]
    exact List.getLast?_concat _
  · rw [if_neg hc]
    exact List.getLast?_concat _

theorem chain'_pushBounded {hist : History} {o : Obs}
    (hs : hist.Chain' fun a b => a.time < b.time)
    (hlast : ∀ l ∈ hist.getLast?, l.time < o.time) :
    (pushBounded hist o).Chain' fun a b => a.time < b.time := by
  have happ : (hist ++ [o]).Chain' fun a b => a.time < b.time := by
    rw [List.chain'_append]
    refine ⟨hs, List.chain'_singleton o, ?_⟩
    intro x hx y hy
    simp only [List.head?_cons, Option.mem_def, Option.some.injEq] at hy
    subst hy
    exact hlast x hx
  rw [pushBounded_eq]
  by_cases hc : HISTORY_LENGTH < hist.length + 1
  · rw [if_pos hc]
    exact happ.tail
  · rw [if_neg hc]
    exact happ

/-- Strictly increasing timestamps along a history. -/
def histStrictMono (h : History) : Prop :=
  h.Chain' fun a b => a.time < b.time

instance histStrictMonoDec : (h : History) → Decidable (histStrictMono h)
  | [] => isTrue List.chain'_nil
  | [a] => isTrue (List.chain'_singleton a)
  | a :: b :: rest =>
    haveI : Decidable
        (List.Chain' (fun (x y : Obs) => x.time < y.time) (b :: rest)) :=
      histStrictMonoDec (b :: rest)
    decidable_of_iff
      (a.time < b.time ∧
        List.Chain' (fun (x y : Obs) => x.time < y.time) (b :: rest))
      (@List.chain'_cons Obs (fun (x y : Obs) => x.time < y.time)
        a b rest).symm

/-- Every history in the store has strictly increasing timestamps. -/
def storeStrictMono (s : Store) : Prop :=
  ∀ kv ∈ s, histStrictMono kv.2

instance (s : Store) : Decidable (storeStrictMono s) :=
  inferInstanceAs (Decidable (∀ kv ∈ s, histStrictMono kv.2))

/-- Every history in the store respects the length bound. -/
def storeBounded (s : Store) : Prop :=
  ∀ kv ∈ s, kv.2.length ≤ HISTORY_LENGTH

instance (s : Store) : Decidable (storeBounded s) :=
  inferInstanceAs (Decidable (∀ kv ∈ s, kv.2.length ≤ HISTORY_LENGTH))

theorem storeStrictMono_set {s : Store} {k : String} {h : History}
    (hs : storeStrictMono s) (hh : histStrictMono h) :
    storeStrictMono (alistSet s k h) := by
  intro kv hkv
  rcases mem_alistSet hkv with hmem | heq
  · exact hs kv hmem
  · rw [heq]
    exact hh

theorem storeBounded_set {s : Store} {k : String} {h : History}
    (hs : storeBounded s) (hh : h.length ≤ HISTORY_LENGTH) :
    storeBounded (alistSet s k h) := by
  intro kv hkv
  rcases mem_alistSet hkv with hmem | heq
  · exact hs kv hmem
  · rw [heq]
    exact hh

/-- The stale-report rejection of the guarded ingestion: when the
report's timestamp is not greater than the last stored time, the whole
store is returned unchanged. -/
theorem ingestBus_stale {store : Store} {now : Int} {bus : Bus}
    {hist : History} {last : Obs}
    (hfind : alistFind store bus.vehicleNumber = some hist)
    (hlast : hist.getLast? = some last)
    (hle : bus.timestamp ≤ last.time) :
    ingestBus store now bus = store := by
  unfold ingestBus
  by_cases hn : bus.vehicleNumber = ""
  · simp [hn]
  · simp [hn, hfind, hlast, hle]

/-- Branch equation: seeding an unseen vehicle (part_000 / public). -/
theorem ingestBus_seed {store : Store} {now : Int} {bus : Bus}
    (hn : bus.vehicleNumber ≠ "")
    (hfind : alistFind store bus.vehicleNumber = none) :
    ingestBus store now bus =
      alistSet store bus.vehicleNumber [⟨bus.lon, bus.lat, now⟩] := by
  unfold ingestBus
  simp [hn, hfind]

theorem ingestBusPublic_seed {store : Store} {now : Int} {bus : Bus}
    (hn : bus.vehicleNumber ≠ "")
    (hfind : alistFind store bus.vehicleNumber = none) :
    ingestBusPublic store now bus =
      alistSet store bus.vehicleNumber [⟨bus.lon, bus.lat, now⟩] := by
  unfold ingestBusPublic
  simp [hn, hfind]

theorem ingestBus002_seed {store : Store} {now : Int} {bus : Bus}
    (hn : bus.vehicleNumber ≠ "")
    (hfind : alistFind store bus.vehicleNumber = none) :
    ingestBus002 store now bus =
      alistSet store bus.vehicleNumber
        [⟨bus.lon, bus.lat, now - 5000⟩, ⟨bus.lon, bus.lat, now⟩] := by
  unfold ingestBus002
  simp [hn, hfind]

/-- Branch equation: a present but empty history gets the new report
appended (the JS `!last` short-circuit). -/
theorem ingestBus_emptyHist {store : Store} {now : Int} {bus : Bus}
    {hist : History} (hn : bus.vehicleNumber ≠ "")
    (hfind : alistFind store bus.vehicleNumber = some hist)
    (hlast : hist.getLast? = none) :
    ingestBus store now bus =
      alistSet store bus.vehicleNumber
        (pushBounded hist ⟨bus.lon, bus.lat, bus.timestamp⟩) := by
  unfold ingestBus
  simp [hn, hfind, hlast]

/-- Branch equation: a strictly newer report is appended. -/
theorem ingestBus_append {store : Store} {now : Int} {bus : Bus}
    {hist : History} {last : Obs} (hn : bus.vehicleNumber ≠ "")
    (hfind : alistFind store bus.vehicleNumber = some hist)
    (hlast : hist.getLast? = some last)
    (hgt : last.time < bus.timestamp) :
    ingestBus store now bus =
      alistSet store bus.vehicleNumber
        (pushBounded hist ⟨bus.lon, bus.lat, bus.timestamp⟩) := by
  have hle : ¬ bus.timestamp ≤ last.time := not_le.mpr hgt
  have hdiff : last.lon ≠ bus.lon ∨ last.lat ≠ bus.lat ∨
      last.time ≠ bus.timestamp := Or.inr (Or.inr (ne_of_lt hgt))
  unfold ingestBus
  simp [hn, hfind, hlast, hle, hdiff]

theorem ingestBus_preserves_strictMono {store : Store} {now : Int}
    {bus : Bus} (hs : storeStrictMono store) :
    storeStrictMono (ingestBus store now bus) := by
  by_cases hn : bus.vehicleNumber = ""
  · unfold ingestBus
    simpa [hn] using hs
  · cases hfind : alistFind store bus.vehicleNumber with
    | none =>
      rw [ingestBus_seed hn hfind]
      exact storeStrictMono_set hs (by simp [histStrictMono])
    | some hist =>
      have hhist : histStrictMono hist :=
        hs (bus.vehicleNumber, hist) (mem_of_alistFind hfind)
      cases hlast : hist.getLast? with
      | none =>
        have hnil : hist = [] := List.getLast?_eq_none_iff.mp hlast
        rw [ingestBus_emptyHist hn hfind hlast]
        refine storeStrictMono_set hs ?_
        subst hnil
        exact chain'_pushBounded hhist (by simp)
      | some last =>
        by_cases hle : bus.timestamp ≤ last.time
        · rw [ingestBus_stale hfind hlast hle]
          exact hs
        · rw [ingestBus_append hn hfind hlast (lt_of_not_le hle)]
          refine storeStrictMono_set hs ?_
          refine chain'_pushBounded hhist ?_
          intro l hl
          simp only [hlast, Option.mem_def, Option.some.injEq] at hl
          subst hl
          simpa using lt_of_not_le hle

theorem ingestBus_preserves_bounded {store : Store} {now : Int}
    {bus : Bus} (hs : storeBounded store) :
    storeBounded (ingestBus store now bus) := by
  by_cases hn : bus.vehicleNumber = ""
  · unfold ingestBus
    simpa [hn] using hs
  · cases hfind : alistFind store bus.vehicleNumber with
    | none =>
      rw [ingestBus_seed hn hfind]
      exact storeBounded_set hs (by simp [HISTORY_LENGTH])
    | some hist =>
      have hhist : hist.length ≤ HISTORY_LENGTH :=
        hs (bus.vehicleNumber, hist) (mem_of_alistFind hfind)
      cases hlast : hist.getLast? with
      | none =>
        rw [ingestBus_emptyHist hn hfind hlast]
        exact storeBounded_set hs (pushBounded_length_le hist _ hhist)
      | some last =>
        by_cases hle : bus.timestamp ≤ last.time
        · rw [ingestBus_stale hfind hlast hle]
          exact hs
        · rw [ingestBus_append hn hfind hlast (lt_of_not_le hle)]
          exact storeBounded_set hs (pushBounded_length_le hist _ hhist)

/-- Branch equations for the unguarded public ingestion. -/
theorem ingestBusPublic_push {store : Store} {now : Int} {bus : Bus}
    {hist : History} {last : Obs} (hn : bus.vehicleNumber ≠ "")
    (hfind : alistFind store bus.vehicleNumber = some hist)
    (hlast : hist.getLast? = some last)
    (hdiff : last.lon ≠ bus.lon ∨ last.lat ≠ bus.lat ∨
      last.time ≠ bus.timestamp) :
    ingestBusPublic store now bus =
      alistSet store bus.vehicleNumber
        (pushBounded hist ⟨bus.lon, bus.lat, bus.timestamp⟩) := by
  unfold ingestBusPublic
  simp [hn, hfind, hlast, hdiff]

theorem ingestBusPublic_dup {store : Store} {now : Int} {bus : Bus}
    {hist : History} {last : Obs} (hn : bus.vehicleNumber ≠ "")
    (hfind : alistFind store bus.vehicleNumber = some hist)
    (hlast : hist.getLast? = some last)
    (hdup : last.lon = bus.lon ∧ last.lat = bus.lat ∧
      last.time = bus.timestamp) :
    ingestBusPublic store now bus = store := by
  unfold ingestBusPublic
  simp [hn, hfind, hlast, hdup.1, hdup.2.1, hdup.2.2]

theorem ingestBusPublic_preserves_bounded {store : Store} {now : Int}
    {bus : Bus} (hs : storeBounded store) :
    storeBounded (ingestBusPublic store now bus) := by
  by_cases hn : bus.vehicleNumber = ""
  · unfold ingestBusPublic
    simpa [hn] using hs
  · cases hfind : alistFind store bus.vehicleNumber with
    | none =>
      rw [ingestBusPublic_seed hn hfind]
      exact storeBounded_set hs (by simp [HISTORY_LENGTH])
    | some hist =>
      have hhist : hist.length ≤ HISTORY_LENGTH :=
        hs (bus.vehicleNumber, hist) (mem_of_alistFind hfind)
      cases hlast : hist.getLast? with
      | none =>
        have e : ingestBusPublic store now bus =
            alistSet store bus.vehicleNumber
              (pushBounded hist ⟨bus.lon, bus.lat, bus.timestamp⟩) := by
          unfold ingestBusPublic
          simp [hn, hfind, hlast]
        rw [e]
        exact storeBounded_set hs (pushBounded_length_le hist _ hhist)
      | some last =>
        by_cases hdiff : last.lon ≠ bus.lon ∨ last.lat ≠ bus.lat ∨
            last.time ≠ bus.timestamp
        · rw [ingestBusPublic_push hn hfind hlast hdiff]
          exact storeBounded_set hs (pushBounded_length_le hist _ hhist)
        · push_neg at hdiff
          rw [ingestBusPublic_dup hn hfind hlast hdiff]
          exact hs

theorem ingestBatch_preserves_bounded {store : Store} {now : Int}
    {buses : List Bus} (hs : storeBounded store) :
    storeBounded (ingestBatch store now buses) := by
  induction buses generalizing store with
  | nil => simpa [ingestBatch]
  | cons b rest ih =>
    exact ih (ingestBus_preserves_bounded hs)

theorem ingestBatch_preserves_strictMono {store : Store} {now : Int}
    {buses : List Bus} (hs : storeStrictMono store) :
    storeStrictMono (ingestBatch store now buses) := by
  induction buses generalizing store with
  | nil => simpa [ingestBatch]
  | cons b rest ih =>
    exact ih (ingestBus_preserves_strictMono hs)

/-- The report `bus` is already dominated in `s`: the stored history of
its vehicle exists and ends at a time not less than the report's
timestamp (so guarded ingestion will reject it). -/
def dominated (s : Store) (bus : Bus) : Prop :=
  ∃ hist last, alistFind s bus.vehicleNumber = some hist ∧
    hist.getLast? = some last ∧ bus.timestamp ≤ last.time

theorem ingestBus_of_dominated {s : Store} {now : Int} {bus : Bus}
    (h : dominated s bus) : ingestBus s now bus = s := by
  obtain ⟨hist, last, hfind, hlast, hle⟩ := h
  exact ingestBus_stale hfind hlast hle

/-- One guarded ingestion step never removes a vehicle's history and
never decreases its last stored time. -/
theorem ingestBus_dominated_mono {s : Store} {now : Int} {b : Bus}
    {bus : Bus} (h : dominated s bus) :
    dominated (ingestBus s now b) bus := by
  obtain ⟨hist, last, hfind, hlast, hle⟩ := h
  by_cases hn : b.vehicleNumber = ""
  · refine ⟨hist, last, ?_, hlast, hle⟩
    unfold ingestBus
    simp [hn, hfind]
  · by_cases hv : b.vehicleNumber = bus.vehicleNumber
    · cases hfind2 : alistFind s b.vehicleNumber with
      | none =>
        rw [hv] at hfind2
        rw [hfind2] at hfind
        exact absurd hfind (by simp)
      | some hist2 =>
        have hh : hist2 = hist := by
          rw [hv] at hfind2
          rw [hfind2] at hfind
          exact Option.some.inj hfind
        subst hh
        cases hlast2 : hist2.getLast? with
        | none =>
          rw [hlast2] at hlast
          exact absurd hlast (by simp)
        | some last2 =>
          have hl : last2 = last := by
            rw [hlast2] at hlast
            exact Option.some.inj hlast
          subst hl
          by_cases hle2 : b.timestamp ≤ last2.time
          · rw [ingestBus_stale hfind2 hlast2 hle2]
            exact ⟨hist2, last2, by rw [hv] at hfind2; exact hfind2, hlast2,
              hle⟩
          · rw [ingestBus_append hn hfind2 hlast2 (lt_of_not_le hle2)]
            refine ⟨pushBounded hist2 ⟨b.lon, b.lat, b.timestamp⟩,
              ⟨b.lon, b.lat, b.timestamp⟩, ?_, getLast?_pushBounded _ _, ?_⟩
            · rw [hv]
              exact alistFind_set_self _ _ _
            · exact le_trans hle (le_of_lt (lt_of_not_le hle2))
    · refine ⟨hist, last, ?_, hlast, hle⟩
      cases hfind2 : alistFind s b.vehicleNumber with
      | none =>
        rw [ingestBus_seed hn hfind2, alistFind_set_ne _ _ _ _
          (fun he => hv he.symm)]
        exact hfind
      | some hist2 =>
        cases hlast2 : hist2.getLast? with
        | none =>
          rw [ingestBus_emptyHist hn hfind2 hlast2, alistFind_set_ne _ _ _ _
            (fun he => hv he.symm)]
          exact hfind
        | some last2 =>
          by_cases hle2 : b.timestamp ≤ last2.time
          · rw [ingestBus_stale hfind2 hlast2 hle2]
            exact hfind
          · rw [ingestBus_append hn hfind2 hlast2 (lt_of_not_le hle2),
              alistFind_set_ne _ _ _ _ (fun he => hv he.symm)]
            exact hfind

theorem ingestBatch_dominated_mono {s : Store} {now : Int}
    {buses : List Bus} {bus : Bus} (h : dominated s bus) :
    dominated (ingestBatch s now buses) bus := by
  induction buses generalizing s with
  | nil => simpa [ingestBatch]
  | cons b rest ih =>
    exact ih (ingestBus_dominated_mono h)

/-- One guarded ingestion step establishes domination of the very
report it processed, whenever that report's timestamp is at most the
ingestion wall-clock time. -/
theorem ingestBus_establishes_dominated {s : Store} {now : Int} {bus : Bus}
    (hn : bus.vehicleNumber ≠ "") (hts : bus.timestamp ≤ now) :
    dominated (ingestBus s now bus) bus := by
  cases hfind : alistFind s bus.vehicleNumber with
  | none =>
    rw [ingestBus_seed hn hfind]
    exact ⟨[⟨bus.lon, bus.lat, now⟩], ⟨bus.lon, bus.lat, now⟩,
      alistFind_set_self _ _ _, by simp, hts⟩
  | some hist =>
    cases hlast : hist.getLast? with
    | none =>
      rw [ingestBus_emptyHist hn hfind hlast]
      exact ⟨pushBounded hist ⟨bus.lon, bus.lat, bus.timestamp⟩,
        ⟨bus.lon, bus.lat, bus.timestamp⟩, alistFind_set_self _ _ _,
        getLast?_pushBounded _ _, le_refl _⟩
    | some last =>
      by_cases hle : bus.timestamp ≤ last.time
      · rw [ingestBus_stale hfind hlast hle]
        exact ⟨hist, last, hfind, hlast, hle⟩
      · rw [ingestBus_append hn hfind hlast (lt_of_not_le hle)]
        exact ⟨pushBounded hist ⟨bus.lon, bus.lat, bus.timestamp⟩,
          ⟨bus.lon, bus.lat, bus.timestamp⟩, alistFind_set_self _ _ _,
          getLast?_pushBounded _ _, le_refl _⟩

/-- After a whole guarded batch, every report of the batch whose
timestamp was at most the ingestion wall-clock time is dominated. -/
theorem ingestBatch_establishes_dominated {s : Store} {now : Int}
    {buses : List Bus} {bus : Bus} (hmem : bus ∈ buses)
    (hn : bus.vehicleNumber ≠ "") (hts : bus.timestamp ≤ now) :
    dominated (ingestBatch s now buses) bus := by
  induction buses generalizing s with
  | nil => simp at hmem
  | cons b rest ih =>
    rcases List.mem_cons.1 hmem with hb | hb
    · subst hb
      show dominated (ingestBatch (ingestBus s now bus) now rest) bus
      exact ingestBatch_dominated_mono
        (ingestBus_establishes_dominated hn hts)
    · exact ih hb

theorem foldl_fixed {α β : Type} {f : α → β → α} {a : α} {l : List β}
    (h : ∀ b ∈ l, f a b = a) : l.foldl f a = a := by
  induction l with
  | nil => rfl
  | cons b rest ih =>
    rw [List.foldl_cons, h b (List.mem_cons_self b rest)]
    exact ih fun c hc => h c (List.mem_cons_of_mem b hc)

theorem ingestBus_empty_id {s : Store} {now : Int} {bus : Bus}
    (hn : bus.vehicleNumber = "") : ingestBus s now bus = s := by
  unfold ingestBus
  simp [hn]

theorem pairs_length : ∀ (l : List Obs), (pairs l).length = l.length - 1
  | [] => rfl
  | [_] => rfl
  | a :: b :: rest => by
    show (pairs (b :: rest)).length + 1 = (b :: rest).length + 1 - 1
    rw [pairs_length (b :: rest)]
    simp

theorem pairs_getElem? : ∀ (l : List Obs) (i : Nat) (a b : Obs),
    l[i]? = some a → l[i + 1]? = some b → (pairs l)[i]? = some (a, b)
  | [], i, a, b, ha, _ => by simp at ha
  | [x], i, a, b, ha, hb => by
    match i with
    | 0 => simp at hb
    | n + 1 => simp at ha
  | x :: y :: rest, 0, a, b, ha, hb => by
    simp only [List.getElem?_cons_zero, Option.some.injEq] at ha
    rw [List.getElem?_cons_succ, List.getElem?_cons_zero] at hb
    have hb2 : y = b := Option.some.inj hb
    subst ha
    subst hb2
    simp [pairs]
  | x :: y :: rest, n + 1, a, b, ha, hb => by
    rw [List.getElem?_cons_succ] at ha
    rw [List.getElem?_cons_succ] at hb
    have he : pairs (x :: y :: rest) = (x, y) :: pairs (y :: rest) := rfl
    rw [he, List.getElem?_cons_succ]
    exact pairs_getElem? (y :: rest) n a b ha hb

theorem fst_mem_of_mem_pairs : ∀ {l : List Obs} {pc : Obs × Obs},
    pc ∈ pairs l → pc.1 ∈ l := by
  intro l
  induction l with
  | nil => intro pc h; simp [pairs] at h
  | cons a rest ih =>
    intro pc h
    match rest, h with
    | b :: rest2, h =>
      rcases List.mem_cons.1 h with h1 | h1
      · subst h1
        exact List.mem_cons_self _ _
      · exact List.mem_cons_of_mem _ (ih h1)

/-- Floor conversion to seconds is monotone. -/
theorem msToSec_mono {a b : Int} (h : a ≤ b) :
    a.fdiv 1000 ≤ b.fdiv 1000 := by
  rw [Int.fdiv_eq_ediv _ (by norm_num), Int.fdiv_eq_ediv _ (by norm_num)]
  exact Int.ediv_le_ediv (by norm_num) h

/-- Key counting lemma: over the consecutive pairs of a history with
strictly increasing times, at most one pair brackets the current
second. -/
theorem countP_bracket_le_one (now : Int) :
    ∀ (l : List Obs), l.Pairwise (fun a b => a.time < b.time) →
      (pairs l).countP
        (fun pc => decide (pc.1.time.fdiv 1000 ≤ now ∧
          now < pc.2.time.fdiv 1000)) ≤ 1 := by
  intro l
  induction l with
  | nil => intro _; simp [pairs]
  | cons a rest ih =>
    intro hp
    match rest with
    | [] => simp [pairs]
    | b :: rest2 =>
      have hp2 : (b :: rest2).Pairwise fun a b => a.time < b.time :=
        hp.of_cons
      show ((a, b) :: pairs (b :: rest2)).countP _ ≤ 1
      rw [List.countP_cons]
      by_cases hab : a.time.fdiv 1000 ≤ now ∧ now < b.time.fdiv 1000
      · have hz : (pairs (b :: rest2)).countP
            (fun pc => decide (pc.1.time.fdiv 1000 ≤ now ∧
              now < pc.2.time.fdiv 1000)) = 0 := by
          rw [List.countP_eq_zero]
          intro pc hpc
          have hfst : pc.1 ∈ b :: rest2 := fst_mem_of_mem_pairs hpc
          have hble : b.time ≤ pc.1.time := by
            rcases List.mem_cons.1 hfst with h1 | h1
            · rw [h1]
            · exact le_of_lt ((List.pairwise_cons.1 hp2).1 pc.1 h1)
          have : now < pc.1.time.fdiv 1000 :=
            lt_of_lt_of_le hab.2 (msToSec_mono hble)
          simp only [decide_eq_true_eq]
          intro hcon
          exact absurd hcon.1 (not_le.mpr this)
        rw [hz]
        simp [hab]
      · have : (decide (a.time.fdiv 1000 ≤ now ∧
            now < b.time.fdiv 1000)) = false := by
          simpa using hab
        rw [this]
        simpa using ih hp2

instance obsTimeLtTrans : IsTrans Obs fun a b => a.time < b.time :=
  ⟨fun _ _ _ h1 h2 => lt_trans h1 h2⟩

/-- Membership characterization of the animating list produced by
part_000's classification loop. -/
theorem mem_animating_iff (trips : List Trip) (now : Int) (seg : Trip) :
    seg ∈ (classify000 trips now).2 ↔
      seg ∈ trips ∧ seg.vehicle.vehicleNumber ≠ "" ∧
        seg.segmentStartTime ≤ now ∧ now < segmentEnd seg := by
  simp only [classify000, List.mem_filter, isAnimating, Bool.and_eq_true,
    bne_iff_ne, ne_eq, Bool.not_eq_true', decide_eq_false_iff_not,
    decide_eq_true_eq, not_le, ge_iff_le]
  constructor
  · rintro ⟨hmem, ⟨⟨hid, _⟩, hstart⟩, hend⟩
    exact ⟨hmem, hid, hstart, hend⟩
  · rintro ⟨hmem, hid, hstart, hend⟩
    exact ⟨hmem, ⟨⟨hid, hend⟩, hstart⟩, hend⟩

/-- Membership characterization of the finished list produced by
part_000's classification loop. -/
theorem mem_finished_iff (trips : List Trip) (now : Int) (seg : Trip) :
    seg ∈ (classify000 trips now).1 ↔
      seg ∈ trips ∧ seg.vehicle.vehicleNumber ≠ "" ∧ segmentEnd seg ≤ now := by
  simp only [classify000, List.mem_filter, isFinished, Bool.and_eq_true,
    bne_iff_ne, ne_eq, decide_eq_true_eq, ge_iff_le]

theorem segOfPair_startTime (bus : Bus) (a b : Obs) :
    (segOfPair bus a b).segmentStartTime = a.time.fdiv 1000 := rfl

theorem segOfPair_end (bus : Bus) (a b : Obs) :
    segmentEnd (segOfPair bus a b) = b.time.fdiv 1000 := by
  simp [segOfPair, segmentEnd]

theorem segOfPair_vehicle (bus : Bus) (a b : Obs) :
    (segOfPair bus a b).vehicle = bus := rfl

/-- With a history known in the store, part_000's builder is the map of
`segOfPair` over the consecutive pairs. -/
theorem segmentsForBus_eq {store : Store} {bus : Bus} {hist : History}
    (hfind : alistFind store bus.vehicleNumber = some hist)
    (hlen : 2 ≤ hist.length) :
    segmentsForBus store bus =
      (pairs hist).map fun pc => segOfPair bus pc.1 pc.2 := by
  unfold segmentsForBus
  rw [hfind]
  simp [Nat.not_lt.mpr hlen]

theorem segmentsForBus_short {store : Store} {bus : Bus} {hist : History}
    (hfind : alistFind store bus.vehicleNumber = some hist)
    (hlen : hist.length < 2) : segmentsForBus store bus = [] := by
  unfold segmentsForBus
  rw [hfind]
  simp [hlen]

/-- Per-vehicle at-most-one-animating: among the segments part_000's
builder emits for one report, at most one is classified animating at
any instant, provided the vehicle's stored history has strictly
increasing times. -/
theorem segmentsForBus_animating_le_one {store : Store} {bus : Bus}
    {hist : History} (now : Int)
    (hfind : alistFind store bus.vehicleNumber = some hist)
    (hmono : histStrictMono hist) :
    (segmentsForBus store bus).countP (isAnimating now) ≤ 1 := by
  by_cases hlen : hist.length < 2
  · rw [segmentsForBus_short hfind hlen]
    simp
  · rw [segmentsForBus_eq hfind (Nat.not_lt.mp hlen), List.countP_map]
    have hpw : hist.Pairwise fun a b => a.time < b.time :=
      List.chain'_iff_pairwise.mp hmono
    refine le_trans (List.countP_mono_left ?_) (countP_bracket_le_one now hist hpw)
    intro pc _ hpc
    simp only [Function.comp_apply, isAnimating, Bool.and_eq_true,
      bne_iff_ne, ne_eq, Bool.not_eq_true', decide_eq_false_iff_not,
      decide_eq_true_eq, not_le, ge_iff_le] at hpc
    obtain ⟨⟨⟨_, _⟩, hstart⟩, hend⟩ := hpc
    rw [segOfPair_startTime] at hstart
    rw [segOfPair_end] at hend
    simp only [decide_eq_true_eq]
    exact ⟨hstart, hend⟩

/-- Whatever a single guarded ingestion step does, it is the identity
or an assignment to the processed vehicle's own key. -/
theorem ingestBus_cases (store : Store) (now : Int) (bus : Bus) :
    ingestBus store now bus = store ∨
      ∃ h, ingestBus store now bus = alistSet store bus.vehicleNumber h := by
  by_cases hn : bus.vehicleNumber = ""
  · left
    exact ingestBus_empty_id hn
  · cases hfind : alistFind store bus.vehicleNumber with
    | none =>
      right
      exact ⟨_, ingestBus_seed hn hfind⟩
    | some hist =>
      cases hlast : hist.getLast? with
      | none =>
        right
        exact ⟨_, ingestBus_emptyHist hn hfind hlast⟩
      | some last =>
        by_cases hle : bus.timestamp ≤ last.time
        · left
          exact ingestBus_stale hfind hlast hle
        · right
          exact ⟨_, ingestBus_append hn hfind hlast (lt_of_not_le hle)⟩

/-- A vehicle id that no report of the batch carries stays absent from
the store across a whole guarded batch ingestion. -/
theorem alistFind_ingestBatch_none {store : Store} {now : Int}
    {buses : List Bus} {v : String}
    (hv : ∀ b ∈ buses, b.vehicleNumber ≠ v)
    (h : alistFind store v = none) :
    alistFind (ingestBatch store now buses) v = none := by
  induction buses generalizing store with
  | nil => simpa [ingestBatch]
  | cons b rest ih =>
    have hstep : alistFind (ingestBus store now b) v = none := by
      rcases ingestBus_cases store now b with hc | ⟨hh, hc⟩
      · rw [hc]
        exact h
      · rw [hc, alistFind_set_ne _ _ _ _
          (fun he => hv b (List.mem_cons_self b rest) he.symm)]
        exact h
    exact ih (fun c hc => hv c (List.mem_cons_of_mem b hc)) hstep

theorem vehicle_of_mem_segmentsForBus {store : Store} {bus : Bus} {t : Trip}
    (h : t ∈ segmentsForBus store bus) : t.vehicle = bus := by
  unfold segmentsForBus at h
  by_cases hlen : ((alistFind store bus.vehicleNumber).getD []).length < 2
  · simp [hlen] at h
  · simp only [if_neg hlen, List.mem_map] at h
    obtain ⟨pc, _, hpc⟩ := h
    rw [← hpc]
    rfl

theorem vehicle_of_mem_buildTrips {store : Store} {buses : List Bus}
    {t : Trip} (h : t ∈ buildTrips store buses) :
    ∃ b ∈ buses, t.vehicle = b := by
  unfold buildTrips at h
  rw [List.mem_flatMap] at h
  obtain ⟨b, hb, ht⟩ := h
  exact ⟨b, hb, vehicle_of_mem_segmentsForBus ht⟩

/-- Generic preservation of a key's absence through an accumulator
fold, when every step either keeps the map or writes another key. -/
theorem alistFind_foldl {β : Type} {k : String}
    (f : List (String × (Rat × Rat)) → β → List (String × (Rat × Rat)))
    (l : List β) (m : List (String × (Rat × Rat)))
    (hf : ∀ m b, b ∈ l → alistFind (f m b) k = alistFind m k) :
    alistFind (l.foldl f m) k = alistFind m k := by
  induction l generalizing m with
  | nil => rfl
  | cons b rest ih =>
    rw [List.foldl_cons, ih _ fun m c hc => hf m c (List.mem_cons_of_mem b hc)]
    exact hf m b (List.mem_cons_self b rest)

/-- A vehicle id carried by no segment never appears among the bus
heads. -/
theorem alistFind_busHeads_none {animating finished : List Trip}
    {now : Int} {k : String}
    (ha : ∀ seg ∈ animating, seg.vehicle.vehicleNumber ≠ k)
    (hf : ∀ seg ∈ finished, seg.vehicle.vehicleNumber ≠ k) :
    alistFind (busHeads animating finished now) k = none := by
  unfold busHeads
  rw [alistFind_foldl _ _ _ ?hfin, alistFind_foldl _ _ _ ?hanim]
  · rfl
  case hanim =>
    intro m seg hseg
    by_cases hn : seg.vehicle.vehicleNumber = ""
    · simp [hn]
    · simp only [if_neg hn]
      exact alistFind_set_ne _ _ _ _ fun he => ha seg hseg he.symm
  case hfin =>
    intro m seg hseg
    by_cases hc : seg.vehicle.vehicleNumber ≠ "" ∧
        alistFind m seg.vehicle.vehicleNumber = none
    · simp only [if_pos hc]
      exact alistFind_set_ne _ _ _ _ fun he => hf seg hseg he.symm
    · simp [hc]

/-! Claim theorems. -/

/-- Claim C1, counterexample.  The claim asserts that ingesting a
report whose timestamp is less than or equal to the last stored entry's
time leaves that vehicle's history unchanged, for the ingestion of
src/public/index.js as well.  At a concrete input — stored history
ending at time 2000 ms, report with timestamp 1000 ms at the same
position — src/public/index.js appends the stale report (its ingestion
has no timestamp guard), and the resulting history has decreasing
times. -/
theorem c1_counterexample :
    (⟨"v", 1, 1, "", "", 1000⟩ : Bus).timestamp ≤
      (⟨1, 1, 2000⟩ : Obs).time ∧
    ingestBusPublic [("v", [⟨1, 1, 2000⟩])] 5000 ⟨"v", 1, 1, "", "", 1000⟩ =
      [("v", [⟨1, 1, 2000⟩, ⟨1, 1, 1000⟩])] ∧
    ingestBusPublic [("v", [⟨1, 1, 2000⟩])] 5000 ⟨"v", 1, 1, "", "", 1000⟩ ≠
      [("v", [⟨1, 1, 2000⟩])] ∧
    ¬ histStrictMono [⟨1, 1, 2000⟩, (⟨1, 1, 1000⟩ : Obs)] := by
  refine ⟨by decide, by decide, by decide, by decide⟩

/-- Claim C1, amended: for the guarded ingestion of
src/unnamed/part_000 (and part_001, whose ingestion code is identical),
a report whose timestamp is at most the last stored entry's time leaves
the store unchanged, and ingestion preserves strictly increasing
history times; the src/public/index.js variant lacks the guard and
violates the claim (see the counterexample). -/
theorem c1_amended_guarded_monotone :
    ∀ (store : Store) (now : Int) (bus : Bus) (hist : History) (last : Obs),
      (alistFind store bus.vehicleNumber = some hist →
        hist.getLast? = some last →
        bus.timestamp ≤ last.time →
        ingestBus store now bus = store) ∧
      (storeStrictMono store → storeStrictMono (ingestBus store now bus)) :=
  fun _ _ _ _ _ =>
    ⟨fun hf hl hle => ingestBus_stale hf hl hle,
     fun hs => ingestBus_preserves_strictMono hs⟩

/-- Witness for the amended C1 at a concrete input. -/
theorem c1_amended_guarded_monotone_witness :
    ingestBus [("v", [⟨1, 1, 2000⟩])] 5000 ⟨"v", 1, 1, "", "", 1000⟩ =
      [("v", [⟨1, 1, 2000⟩])] ∧
    storeStrictMono
      (ingestBus [("v", [⟨1, 1, 2000⟩])] 5000 ⟨"v", 1, 1, "", "", 1000⟩) := by
  have h := c1_amended_guarded_monotone [("v", [⟨1, 1, 2000⟩])] 5000
    ⟨"v", 1, 1, "", "", 1000⟩ [⟨1, 1, 2000⟩] ⟨1, 1, 2000⟩
  exact ⟨h.1 (by decide) (by decide) (by decide), h.2 (by decide)⟩

/-- Claim C2: every ingestion step (guarded part_000 variant, unguarded
src/public/index.js variant, and a whole batch) keeps every history at
length at most HISTORY_LENGTH = 100, and the bounded push appends
without eviction below the bound while evicting exactly the front
(oldest) entry when the history is full. -/
theorem c2_history_bounded :
    ∀ (store : Store) (now : Int) (bus : Bus) (buses : List Bus)
      (hist : History) (o : Obs),
      (storeBounded store → storeBounded (ingestBus store now bus)) ∧
      (storeBounded store → storeBounded (ingestBusPublic store now bus)) ∧
      (storeBounded store → storeBounded (ingestBatch store now buses)) ∧
      (hist.length < HISTORY_LENGTH → pushBounded hist o = hist ++ [o]) ∧
      (hist.length = HISTORY_LENGTH →
        pushBounded hist o = hist.tail ++ [o]) :=
  fun _ _ _ _ hist o =>
    ⟨fun hs => ingestBus_preserves_bounded hs,
     fun hs => ingestBusPublic_preserves_bounded hs,
     fun hs => ingestBatch_preserves_bounded hs,
     fun hlt => pushBounded_eq_append hist o hlt,
     fun heq => pushBounded_eq_evict hist o heq⟩

/-- Witness for C2 at concrete inputs, including a full history of 100
entries whose oldest entry is evicted. -/
theorem c2_history_bounded_witness :
    storeBounded
      (ingestBus [("v", [⟨0, 0, 0⟩])] 5000 ⟨"v", 1, 1, "", "", 3000⟩) ∧
    pushBounded (List.replicate 100 (⟨0, 0, 0⟩ : Obs)) ⟨1, 1, 1⟩ =
      (List.replicate 100 (⟨0, 0, 0⟩ : Obs)).tail ++ [⟨1, 1, 1⟩] := by
  have h := c2_history_bounded [("v", [⟨0, 0, 0⟩])] 5000
    ⟨"v", 1, 1, "", "", 3000⟩ [] (List.replicate 100 (⟨0, 0, 0⟩ : Obs))
    ⟨1, 1, 1⟩
  exact ⟨h.1 (by decide), h.2.2.2.2 (by decide)⟩

/-- Claim C3, counterexample.  The claim asserts that a segment is
classified animating iff now lies in startTime..endTime (half-open),
citing part_001's segment builder as well.  At a concrete input —
a two-point history giving one segment with startTime 0 s and
endTime 10 s, observed at now = 999999 s — part_001's builder
classifies that long-finished segment as animating (positionally, as
the last pair), although now is not inside the interval. -/
theorem c3_counterexample_positional_classifier :
    ((segments001 [("v", [⟨0, 0, 0⟩, ⟨1, 1, 10000⟩])]
        ⟨"v", 1, 1, "", "", 10000⟩).2.map
        fun s => (s.segmentStartTime, s.segmentEndTime)) = [(0, 10)] ∧
    ¬ ((0 : Int) ≤ 999999 ∧ (999999 : Int) < 10) := by
  refine ⟨by decide, by decide⟩

/-- Claim C3, amended: in part_000's animate, a segment is classified
animating iff now is in startTime..endTime (half-open), finished iff
now is at least endTime, a well-formed segment with now before
startTime lands in neither rendered list, and — for a vehicle whose
stored history has strictly increasing times — at most one of its
segments is animating at any instant.  part_001's builder instead
classifies its most recent segment as animating positionally,
regardless of now (see the counterexample). -/
theorem c3_amended_classification :
    ∀ (trips : List Trip) (now : Int) (seg : Trip) (store : Store)
      (bus : Bus) (hist : History),
      (seg ∈ (classify000 trips now).2 ↔
        seg ∈ trips ∧ seg.vehicle.vehicleNumber ≠ "" ∧
          seg.segmentStartTime ≤ now ∧ now < segmentEnd seg) ∧
      (seg ∈ (classify000 trips now).1 ↔
        seg ∈ trips ∧ seg.vehicle.vehicleNumber ≠ "" ∧
          segmentEnd seg ≤ now) ∧
      (seg.segmentStartTime ≤ segmentEnd seg →
        now < seg.segmentStartTime →
        seg ∉ (classify000 trips now).1 ∧
          seg ∉ (classify000 trips now).2) ∧
      (alistFind store bus.vehicleNumber = some hist →
        histStrictMono hist →
        (segmentsForBus store bus).countP (isAnimating now) ≤ 1) := by
  intro trips now seg store bus hist
  refine ⟨mem_animating_iff trips now seg, mem_finished_iff trips now seg,
    ?_, ?_⟩
  · intro hse hlt
    constructor
    · intro hmem
      rw [mem_finished_iff] at hmem
      omega
    · intro hmem
      rw [mem_animating_iff] at hmem
      omega
  · intro hf hm
    exact segmentsForBus_animating_le_one now hf hm

/-- Witness for the amended C3 at a concrete input. -/
theorem c3_amended_classification_witness :
    (segmentsForBus [("v", [⟨0, 0, 0⟩, ⟨1, 1, 10000⟩])]
        ⟨"v", 1, 1, "", "", 10000⟩).countP (isAnimating 5) ≤ 1 ∧
    segOfPair ⟨"v", 1, 1, "", "", 10000⟩ ⟨0, 0, 0⟩ ⟨1, 1, 10000⟩ ∈
      (classify000 (segmentsForBus [("v", [⟨0, 0, 0⟩, ⟨1, 1, 10000⟩])]
        ⟨"v", 1, 1, "", "", 10000⟩) 5).2 := by
  have h := c3_amended_classification
    (segmentsForBus [("v", [⟨0, 0, 0⟩, ⟨1, 1, 10000⟩])]
      ⟨"v", 1, 1, "", "", 10000⟩)
    5 (segOfPair ⟨"v", 1, 1, "", "", 10000⟩ ⟨0, 0, 0⟩ ⟨1, 1, 10000⟩)
    [("v", [⟨0, 0, 0⟩, ⟨1, 1, 10000⟩])] ⟨"v", 1, 1, "", "", 10000⟩
    [⟨0, 0, 0⟩, ⟨1, 1, 10000⟩]
  exact ⟨h.2.2.2 (by decide) (by decide), h.1.mpr (by decide)⟩

theorem headFraction_nonneg (seg : Trip) (now : Int) :
    0 ≤ headFraction seg now := le_max_left _ _

theorem headFraction_le_one (seg : Trip) (now : Int) :
    headFraction seg now ≤ 1 :=
  max_le (by norm_num) (min_le_left _ _)

/-- Linear interpolation with a clamped parameter stays between its
endpoints. -/
theorem lerp_between {a b t : Rat} (h0 : 0 ≤ t) (h1 : t ≤ 1) :
    min a b ≤ a + (b - a) * t ∧ a + (b - a) * t ≤ max a b := by
  rcases le_total a b with hab | hab
  · rw [min_eq_left hab, max_eq_right hab]
    constructor <;> nlinarith
  · rw [min_eq_right hab, max_eq_left hab]
    constructor <;> nlinarith

/-- When now has reached a positive-duration segment's end, the
fraction saturates at 1. -/
theorem headFraction_saturated {seg : Trip} {now : Int}
    (hd : 1 ≤ seg.timestamps.getD 1 0) (hend : segmentEnd seg ≤ now) :
    headFraction seg now = 1 := by
  unfold headFraction
  have hd0 : seg.timestamps.getD 1 0 ≠ 0 := by omega
  have hjs : jsOrOne (seg.timestamps.getD 1 0) = seg.timestamps.getD 1 0 := by
    unfold jsOrOne
    rw [if_neg hd0]
  rw [hjs]
  have hdpos : (0 : Rat) < ((seg.timestamps.getD 1 0 : Int) : Rat) := by
    exact_mod_cast lt_of_lt_of_le Int.zero_lt_one hd
  have hint : (seg.timestamps.getD 1 0 : Int) ≤ now - seg.segmentStartTime := by
    have he : segmentEnd seg =
        seg.segmentStartTime + seg.timestamps.getD 1 0 := rfl
    omega
  have hq : ((seg.timestamps.getD 1 0 : Int) : Rat) ≤
      (now : Rat) - (seg.segmentStartTime : Rat) := by
    exact_mod_cast hint
  have hge : (1 : Rat) ≤
      ((now : Rat) - (seg.segmentStartTime : Rat)) /
        ((seg.timestamps.getD 1 0 : Int) : Rat) := by
    rw [le_div_iff₀ hdpos, one_mul]
    exact hq
  rw [min_eq_left hge, max_eq_right (by norm_num : (0 : Rat) ≤ 1)]

/-- When now has reached a positive-duration segment's end, the head is
exactly the segment's final point. -/
theorem headPos_saturated {seg : Trip} {now : Int}
    (hd : 1 ≤ seg.timestamps.getD 1 0) (hend : segmentEnd seg ≤ now) :
    headPos seg now = seg.path.getD 1 (0, 0) := by
  unfold headPos
  rw [headFraction_saturated hd hend]
  dsimp only
  have h1 : ∀ x y : Rat, x + (y - x) * 1 = y := fun x y => by ring
  rw [h1, h1]

/-- Claim C4: the head-interpolation fraction of part_000's animate is
clamped to 0..1, for a nonnegative duration the JS fallback clamps the
denominator to at least 1, a zero-duration segment is never classified
animating, a head whose segment's end has passed sits exactly at the
final path point (no extrapolation), and the head always stays between
the segment's two endpoints. -/
theorem c4_head_fraction_clamped :
    ∀ (seg : Trip) (now : Int) (d : Int) (trips : List Trip),
      (0 ≤ headFraction seg now ∧ headFraction seg now ≤ 1) ∧
      (0 ≤ d → jsOrOne d = max d 1) ∧
      (seg.timestamps.getD 1 0 = 0 → seg ∉ (classify000 trips now).2) ∧
      (1 ≤ seg.timestamps.getD 1 0 → segmentEnd seg ≤ now →
        headPos seg now = seg.path.getD 1 (0, 0)) ∧
      (min (seg.path.getD 0 (0, 0)).1 (seg.path.getD 1 (0, 0)).1 ≤
          (headPos seg now).1 ∧
        (headPos seg now).1 ≤
          max (seg.path.getD 0 (0, 0)).1 (seg.path.getD 1 (0, 0)).1 ∧
        min (seg.path.getD 0 (0, 0)).2 (seg.path.getD 1 (0, 0)).2 ≤
          (headPos seg now).2 ∧
        (headPos seg now).2 ≤
          max (seg.path.getD 0 (0, 0)).2 (seg.path.getD 1 (0, 0)).2) := by
  intro seg now d trips
  have hfst : (headPos seg now).1 =
      (seg.path.getD 0 (0, 0)).1 +
        ((seg.path.getD 1 (0, 0)).1 - (seg.path.getD 0 (0, 0)).1) *
          headFraction seg now := rfl
  have hsnd : (headPos seg now).2 =
      (seg.path.getD 0 (0, 0)).2 +
        ((seg.path.getD 1 (0, 0)).2 - (seg.path.getD 0 (0, 0)).2) *
          headFraction seg now := rfl
  refine ⟨⟨headFraction_nonneg seg now, headFraction_le_one seg now⟩,
    ?_, ?_, fun hd hend => headPos_saturated hd hend, ?_⟩
  · intro hdn
    unfold jsOrOne
    by_cases h0 : d = 0
    · simp [h0]
    · rw [if_neg h0, max_eq_left (by omega)]
  · intro h0 hmem
    rw [mem_animating_iff] at hmem
    have he : segmentEnd seg =
        seg.segmentStartTime + seg.timestamps.getD 1 0 := rfl
    omega
  · rw [hfst, hsnd]
    refine ⟨(lerp_between (headFraction_nonneg seg now)
        (headFraction_le_one seg now)).1,
      (lerp_between (headFraction_nonneg seg now)
        (headFraction_le_one seg now)).2,
      (lerp_between (headFraction_nonneg seg now)
        (headFraction_le_one seg now)).1,
      (lerp_between (headFraction_nonneg seg now)
        (headFraction_le_one seg now)).2⟩

/-- Witness for C4 at a concrete input: a segment from second 0 to
second 10, observed at now = 20 well past its end. -/
theorem c4_head_fraction_clamped_witness :
    0 ≤ headFraction
        (segOfPair ⟨"v", 10, 10, "", "", 10000⟩ ⟨0, 0, 0⟩ ⟨10, 10, 10000⟩)
        20 ∧
    headPos (segOfPair ⟨"v", 10, 10, "", "", 10000⟩ ⟨0, 0, 0⟩
        ⟨10, 10, 10000⟩) 20 = (10, 10) ∧
    jsOrOne 0 = max 0 1 := by
  have h := c4_head_fraction_clamped
    (segOfPair ⟨"v", 10, 10, "", "", 10000⟩ ⟨0, 0, 0⟩ ⟨10, 10, 10000⟩)
    20 0 []
  refine ⟨h.1.1, ?_, h.2.1 (by decide)⟩
  have h2 := h.2.2.2.1 (by decide) (by decide)
  rw [h2]
  decide

/-- Claim C5, counterexample.  The claim asserts that feeding the
identical batch twice produces no change on the second feed, including
for vehicles unseen before the first feed, citing src/public/index.js
as well.  At a concrete input — one report with feed timestamp 1000 ms
for an unseen vehicle, first ingested at wall-clock 5000 ms, fed again
at wall-clock 15000 ms — the public variant seeds the history at
5000 ms and then re-appends the same report on the second feed, because
the report's timestamp differs from the seeding time and no guard
rejects it. -/
theorem c5_counterexample_reseed :
    ingestBatchPublic [] 5000 [⟨"v", 1, 1, "", "", 1000⟩] =
      [("v", [⟨1, 1, 5000⟩])] ∧
    ingestBatchPublic (ingestBatchPublic [] 5000 [⟨"v", 1, 1, "", "", 1000⟩])
        15000 [⟨"v", 1, 1, "", "", 1000⟩] =
      [("v", [⟨1, 1, 5000⟩, ⟨1, 1, 1000⟩])] ∧
    ingestBatchPublic (ingestBatchPublic [] 5000 [⟨"v", 1, 1, "", "", 1000⟩])
        15000 [⟨"v", 1, 1, "", "", 1000⟩] ≠
      ingestBatchPublic [] 5000 [⟨"v", 1, 1, "", "", 1000⟩] := by
  refine ⟨by decide, by decide, by decide⟩

/-- Claim C5, amended: for the guarded ingestion of part_000, feeding
an identical batch twice produces no change on the second feed —
including vehicles unseen before the first feed — provided each
report's timestamp is at most the wall-clock time of the first
ingestion (so that histories seeded at ingestion time dominate their
report); src/public/index.js violates the claim for seeded vehicles
(see the counterexample). -/
theorem c5_amended_idempotent :
    ∀ (store : Store) (now1 now2 : Int) (batch : List Bus),
      (∀ b ∈ batch, b.timestamp ≤ now1) →
      ingestBatch (ingestBatch store now1 batch) now2 batch =
        ingestBatch store now1 batch := by
  intro store now1 now2 batch hts
  apply foldl_fixed
  intro b hb
  by_cases hn : b.vehicleNumber = ""
  · exact ingestBus_empty_id hn
  · exact ingestBus_of_dominated
      (ingestBatch_establishes_dominated hb hn (hts b hb))

/-- Witness for the amended C5 at a concrete input. -/
theorem c5_amended_idempotent_witness :
    ingestBatch (ingestBatch [] 5000 [⟨"v", 1, 1, "", "", 1000⟩]) 15000
        [⟨"v", 1, 1, "", "", 1000⟩] =
      ingestBatch [] 5000 [⟨"v", 1, 1, "", "", 1000⟩] :=
  c5_amended_idempotent [] 5000 15000 [⟨"v", 1, 1, "", "", 1000⟩]
    (by decide)

/-- Claim C6, counterexample.  The claim asserts that after a failed
fetch the previously derived segments continue to be rendered.  At a
concrete input — a cached one-segment trips list, fetch outcome none
(the fetch threw) — part_000's updateTrips replaces the cache with the
empty list returned by the catch handler, so the previously derived
segment is no longer rendered. -/
theorem c6_counterexample_cache_cleared :
    (updateTrips000
        [segOfPair ⟨"v", 1, 1, "", "", 0⟩ ⟨0, 0, 0⟩ ⟨1, 1, 10000⟩]
        [("v", [⟨0, 0, 0⟩, ⟨1, 1, 10000⟩])] none 123).1 = [] ∧
    (updateTrips000
        [segOfPair ⟨"v", 1, 1, "", "", 0⟩ ⟨0, 0, 0⟩ ⟨1, 1, 10000⟩]
        [("v", [⟨0, 0, 0⟩, ⟨1, 1, 10000⟩])] none 123).1 ≠
      [segOfPair ⟨"v", 1, 1, "", "", 0⟩ ⟨0, 0, 0⟩ ⟨1, 1, 10000⟩] := by
  refine ⟨by decide, by decide⟩

/-- Claim C6, amended: when the fetch or decode throws, part_000 leaves
the History Store unchanged, but its updateTrips replaces the cached
trips list with the empty list returned by the catch handler, so
previously derived segments stop being rendered until the next
successful fetch re-derives them from the intact history. -/
theorem c6_amended_store_preserved :
    ∀ (cache : List Trip) (store : Store) (now : Int),
      updateTrips000 cache store none now = ([], store) :=
  fun _ _ _ => rfl

/-- Claim C7, counterexample.  The claim asserts that for every vehicle
with history length L at least 2 the builder emits exactly L - 1
segments, citing part_002's builder as well.  At a concrete input — a
5-point history — part_002's builder starts its loop at
max(1, L - 3) = 2 and emits only 3 segments instead of 4. -/
theorem c7_counterexample_builder002 :
    (segments002
        [("v", [⟨0, 0, 0⟩, ⟨1, 1, 10000⟩, ⟨2, 2, 20000⟩, ⟨3, 3, 30000⟩,
          ⟨4, 4, 40000⟩])]
        ⟨"v", 4, 4, "", "", 40000⟩).length = 3 ∧
    ((alistFind
        ([("v", [⟨0, 0, 0⟩, ⟨1, 1, 10000⟩, ⟨2, 2, 20000⟩, ⟨3, 3, 30000⟩,
          ⟨4, 4, 40000⟩])] : Store) "v").getD []).length - 1 = 4 ∧
    (3 : Nat) ≠ 4 := by
  refine ⟨by decide, by decide, by decide⟩

/-- Claim C7, amended: part_000's builder emits exactly L - 1 segments
for a history of length L at least 2, the i-th segment coming from the
consecutive pair (hist[i], hist[i+1]) with
startTime = floor(hist[i].time / 1000) and
endTime = floor(hist[i+1].time / 1000); part_002's builder emits only
the most recent min(L - 1, 3) pairs (see the counterexample). -/
theorem c7_amended_segment_count :
    ∀ (store : Store) (bus : Bus) (hist : History) (i : Nat) (a b : Obs),
      alistFind store bus.vehicleNumber = some hist →
      2 ≤ hist.length →
      (segmentsForBus store bus).length = hist.length - 1 ∧
      (hist[i]? = some a → hist[i + 1]? = some b →
        (segmentsForBus store bus)[i]? = some (segOfPair bus a b)) ∧
      (segOfPair bus a b).segmentStartTime = a.time.fdiv 1000 ∧
      segmentEnd (segOfPair bus a b) = b.time.fdiv 1000 := by
  intro store bus hist i a b hfind hlen
  rw [segmentsForBus_eq hfind hlen]
  refine ⟨?_, ?_, segOfPair_startTime bus a b, segOfPair_end bus a b⟩
  · rw [List.length_map, pairs_length]
  · intro ha hb
    rw [List.getElem?_map, pairs_getElem? hist i a b ha hb]
    rfl

/-- Witness for the amended C7 at a concrete input: a 3-point history
yields exactly 2 segments with the floored start and end seconds. -/
theorem c7_amended_segment_count_witness :
    (segmentsForBus [("v", [⟨0, 0, 0⟩, ⟨1, 1, 10500⟩, ⟨2, 2, 20500⟩])]
        ⟨"v", 2, 2, "", "", 20500⟩).length = 2 ∧
    (segmentsForBus [("v", [⟨0, 0, 0⟩, ⟨1, 1, 10500⟩, ⟨2, 2, 20500⟩])]
        ⟨"v", 2, 2, "", "", 20500⟩)[1]? =
      some (segOfPair ⟨"v", 2, 2, "", "", 20500⟩ ⟨1, 1, 10500⟩
        ⟨2, 2, 20500⟩) ∧
    segmentEnd (segOfPair ⟨"v", 2, 2, "", "", 20500⟩ ⟨1, 1, 10500⟩
        ⟨2, 2, 20500⟩) = 20 := by
  have h := c7_amended_segment_count
    [("v", [⟨0, 0, 0⟩, ⟨1, 1, 10500⟩, ⟨2, 2, 20500⟩])]
    ⟨"v", 2, 2, "", "", 20500⟩ [⟨0, 0, 0⟩, ⟨1, 1, 10500⟩, ⟨2, 2, 20500⟩]
    1 ⟨1, 1, 10500⟩ ⟨2, 2, 20500⟩ (by decide) (by decide)
  refine ⟨h.1, h.2.1 (by decide) (by decide), ?_⟩
  rw [h.2.2.2]
  decide

/-- Claim C8: code bug.  The claim (and the code's own comment, "show
head at end of animating segment, or last static segment") says that a
vehicle without an animating segment gets its head at the endpoint of
its last finished segment.  At the failing input — history
(0,0) at 0 ms, (1,1) at 10000 ms, (2,2) at 20000 ms, observed at
now = 100 s, when both segments are finished and none is animating —
part_000's head loop takes the first finished segment in list order
(its guard skips a vehicle that already has a head), so the head is
placed at (1,1), the endpoint of the oldest finished segment, instead
of (2,2), the endpoint of the most recent one.  The marker itself does
exist (the head lookup succeeds), as the claim's second half states. -/
theorem c8_head_at_first_finished_segment :
    (classify000 (segmentsForBus
        [("v", [⟨0, 0, 0⟩, ⟨1, 1, 10000⟩, ⟨2, 2, 20000⟩])]
        ⟨"v", 2, 2, "", "", 20000⟩) 100).2 = [] ∧
    ((classify000 (segmentsForBus
        [("v", [⟨0, 0, 0⟩, ⟨1, 1, 10000⟩, ⟨2, 2, 20000⟩])]
        ⟨"v", 2, 2, "", "", 20000⟩) 100).1.map
        fun s => s.path.getD 1 (0, 0)) = [(1, 1), (2, 2)] ∧
    alistFind
      (busHeads
        (classify000 (segmentsForBus
          [("v", [⟨0, 0, 0⟩, ⟨1, 1, 10000⟩, ⟨2, 2, 20000⟩])]
          ⟨"v", 2, 2, "", "", 20000⟩) 100).2
        (classify000 (segmentsForBus
          [("v", [⟨0, 0, 0⟩, ⟨1, 1, 10000⟩, ⟨2, 2, 20000⟩])]
          ⟨"v", 2, 2, "", "", 20000⟩) 100).1
        100) "v" = some (1, 1) ∧
    ((1 : Rat), (1 : Rat)) ≠ ((2 : Rat), (2 : Rat)) := by
  refine ⟨by decide, by decide, by decide, by decide⟩

/-- Claim C9, counterexample.  The claim asserts that an unseen vehicle
is seeded either with a single point at ingestion wall-clock time or
with a two-point history spanning the reported time and now - 5 s.
At a concrete input — report timestamp 42 ms, ingestion wall-clock
1000000 ms — part_002 seeds two points at times 995000 and 1000000:
not a single point, and the reported time 42 appears in neither entry,
so neither disjunct of the claim holds. -/
theorem c9_counterexample_seed_times :
    ingestBus002 [] 1000000 ⟨"v", 1, 2, "", "", 42⟩ =
      [("v", [⟨1, 2, 995000⟩, ⟨1, 2, 1000000⟩])] ∧
    ([⟨1, 2, 995000⟩, ⟨1, 2, 1000000⟩] : History).length ≠ 1 ∧
    (∀ o ∈ ([⟨1, 2, 995000⟩, ⟨1, 2, 1000000⟩] : History), o.time ≠ 42) := by
  refine ⟨by decide, by decide, by decide⟩

/-- Claim C9, amended: a report for an unseen vehicle (with a non-empty
id) seeds the history with a single point at the reported position and
the ingestion wall-clock time in part_000 and src/public/index.js, and
with two points at the reported position and times now - 5 s and now
(both ingestion wall-clock, not the reported feed time) in part_002;
in each case every other key of the store is untouched. -/
theorem c9_amended_seeding :
    ∀ (store : Store) (now : Int) (bus : Bus) (k : String),
      bus.vehicleNumber ≠ "" →
      alistFind store bus.vehicleNumber = none →
      ingestBus store now bus =
        alistSet store bus.vehicleNumber [⟨bus.lon, bus.lat, now⟩] ∧
      ingestBusPublic store now bus =
        alistSet store bus.vehicleNumber [⟨bus.lon, bus.lat, now⟩] ∧
      ingestBus002 store now bus =
        alistSet store bus.vehicleNumber
          [⟨bus.lon, bus.lat, now - 5000⟩, ⟨bus.lon, bus.lat, now⟩] ∧
      (k ≠ bus.vehicleNumber →
        alistFind (ingestBus store now bus) k = alistFind store k ∧
        alistFind (ingestBus002 store now bus) k = alistFind store k) := by
  intro store now bus k hn hfind
  refine ⟨ingestBus_seed hn hfind, ingestBusPublic_seed hn hfind,
    ingestBus002_seed hn hfind, ?_⟩
  intro hk
  constructor
  · rw [ingestBus_seed hn hfind]
    exact alistFind_set_ne _ _ _ _ hk
  · rw [ingestBus002_seed hn hfind]
    exact alistFind_set_ne _ _ _ _ hk

/-- Witness for the amended C9 at a concrete input. -/
theorem c9_amended_seeding_witness :
    ingestBus [("w", [⟨9, 9, 7⟩])] 1000000 ⟨"v", 1, 2, "", "", 42⟩ =
      alistSet [("w", [⟨9, 9, 7⟩])] "v" [⟨1, 2, 1000000⟩] ∧
    alistFind (ingestBus002 [("w", [⟨9, 9, 7⟩])] 1000000
        ⟨"v", 1, 2, "", "", 42⟩) "w" =
      alistFind ([("w", [⟨9, 9, 7⟩])] : Store) "w" := by
  have h := c9_amended_seeding [("w", [⟨9, 9, 7⟩])] 1000000
    ⟨"v", 1, 2, "", "", 42⟩ "w" (by decide) (by decide)
  exact ⟨h.1, (h.2.2.2 (by decide)).2⟩

/-- Claim C10: every report surviving normalization comes from an
entity with a vehicle position and never carries the vehicle id
V/10/9; consequently that vehicle never enters the History Store (if it
was absent it stays absent across a whole batch), never appears on the
vehicles of the built trips, and never appears among the rendered
point primitives (the bus heads computed from the classified
segments), at any render instant. -/
theorem c10_filtering :
    ∀ (entities : List Entity) (now nowSec : Int) (store : Store) (b : Bus)
      (t : Trip),
      (b ∈ toBuses entities now →
        b.vehicleNumber ≠ "V/10/9" ∧
        ∃ e ∈ entities, (e.hasVehicle ∧ e.hasPosition) ∧
          b = busOfEntity now e) ∧
      (alistFind store "V/10/9" = none →
        alistFind (ingestBatch store now (toBuses entities now))
          "V/10/9" = none) ∧
      (t ∈ buildTrips (ingestBatch store now (toBuses entities now))
          (toBuses entities now) →
        t.vehicle.vehicleNumber ≠ "V/10/9") ∧
      alistFind
        (busHeads
          (classify000
            (buildTrips (ingestBatch store now (toBuses entities now))
              (toBuses entities now)) nowSec).2
          (classify000
            (buildTrips (ingestBatch store now (toBuses entities now))
              (toBuses entities now)) nowSec).1
          nowSec) "V/10/9" = none := by
  intro entities now nowSec store b t
  have hv : ∀ c ∈ toBuses entities now, c.vehicleNumber ≠ "V/10/9" := by
    intro c hc
    unfold toBuses at hc
    exact of_decide_eq_true (List.mem_filter.1 hc).2
  have htr : ∀ s ∈ buildTrips (ingestBatch store now (toBuses entities now))
      (toBuses entities now), s.vehicle.vehicleNumber ≠ "V/10/9" := by
    intro s hs
    obtain ⟨c, hc, hveh⟩ := vehicle_of_mem_buildTrips hs
    rw [hveh]
    exact hv c hc
  refine ⟨?_, ?_, fun ht => htr t ht, ?_⟩
  · intro hb
    refine ⟨hv b hb, ?_⟩
    unfold toBuses at hb
    obtain ⟨hb1, _⟩ := List.mem_filter.1 hb
    obtain ⟨e, he, hbe⟩ := List.mem_map.1 hb1
    obtain ⟨he1, he2⟩ := List.mem_filter.1 he
    refine ⟨e, he1, ?_, hbe.symm⟩
    simpa using he2
  · intro hnone
    exact alistFind_ingestBatch_none hv hnone
  · refine alistFind_busHeads_none ?_ ?_
    · intro seg hseg
      exact htr seg ((mem_animating_iff _ _ _).1 hseg).1
    · intro seg hseg
      exact htr seg ((mem_finished_iff _ _ _).1 hseg).1

/-- Witness for C10 at a concrete input: a feed with a normal entity,
a V/10/9 entity, and an entity without a position. -/
theorem c10_filtering_witness :
    (busOfEntity 1000
        ⟨true, true, some "a", 21, 52, some "175", some 3⟩).vehicleNumber ≠
      "V/10/9" ∧
    alistFind
      (ingestBatch [] 1000
        (toBuses
          [⟨true, true, some "a", 21, 52, some "175", some 3⟩,
           ⟨true, true, some "V/10/9", 21, 52, none, some 3⟩,
           ⟨true, false, some "b", 21, 52, none, none⟩] 1000))
      "V/10/9" = none ∧
    alistFind
      (busHeads
        (classify000
          (buildTrips
            (ingestBatch [] 1000
              (toBuses
                [⟨true, true, some "a", 21, 52, some "175", some 3⟩,
                 ⟨true, true, some "V/10/9", 21, 52, none, some 3⟩,
                 ⟨true, false, some "b", 21, 52, none, none⟩] 1000))
            (toBuses
              [⟨true, true, some "a", 21, 52, some "175", some 3⟩,
               ⟨true, true, some "V/10/9", 21, 52, none, some 3⟩,
               ⟨true, false, some "b", 21, 52, none, none⟩] 1000)) 5).2
        (classify000
          (buildTrips
            (ingestBatch [] 1000
              (toBuses
                [⟨true, true, some "a", 21, 52, some "175", some 3⟩,
                 ⟨true, true, some "V/10/9", 21, 52, none, some 3⟩,
                 ⟨true, false, some "b", 21, 52, none, none⟩] 1000))
            (toBuses
              [⟨true, true, some "a", 21, 52, some "175", some 3⟩,
               ⟨true, true, some "V/10/9", 21, 52, none, some 3⟩,
               ⟨true, false, some "b", 21, 52, none, none⟩] 1000)) 5).1
        5) "V/10/9" = none := by
  have h := c10_filtering
    [⟨true, true, some "a", 21, 52, some "175", some 3⟩,
     ⟨true, true, some "V/10/9", 21, 52, none, some 3⟩,
     ⟨true, false, some "b", 21, 52, none, none⟩] 1000 5 []
    (busOfEntity 1000 ⟨true, true, some "a", 21, 52, some "175", some 3⟩)
    (segOfPair ⟨"a", 21, 52, "175", "a", 3000⟩ ⟨21, 52, 0⟩ ⟨21, 52, 1⟩)
  exact ⟨(h.1 (by decide)).1, h.2.1 (by decide), h.2.2.2⟩
